import Mathlib

/-
Verification development for the Ojakh recipe service (src/index.js).

The service keeps three relational tables: recipes, ingredients and
recipe_ingredients. Each HTTP handler issues one or more SQL statements;
the two write handlers (POST /ojakh/recipes and PUT /ojakh/recipes/:id)
wrap their statements in a transaction that rolls back on the first
failing statement. We embed the database as an explicit `Store` value and
each handler as a function on it. Possible failure of an SQL statement
(constraint violation, connection loss, ...) is modelled by an oracle
`fails : Nat → Bool` consulted at each statement the handler issues, in
issue order; a failing statement makes the handler roll back, i.e. return
the original store together with a 500 response.

Serial ids are modelled by `nextRecipeId` / `nextIngredientId` counters,
and the recipes table's `created_at` column by a `clock` counter.
JavaScript's `toLowerCase` is modelled by `lowerStr` (per-character
`Char.toLower`), and the JS truthiness test `if (ing.name)` by
`name != ""` (an absent name is modelled as the empty string, which is
falsy exactly like `undefined`). A request body whose `ingredients` field
is absent or not an array (over which `for ... of` would throw) is
modelled as `none`.
-/

namespace Ojakh

/-- Lowercasing as performed by JavaScript's toLowerCase on the ASCII
names used throughout; modelled per character so the kernel can
evaluate it. -/
def lowerStr (s : String) : String := String.mk (s.data.map Char.toLower)

/-- Row of the recipes table: id, title, category, cover_image_url,
steps (stored serialized; modelled structurally) and created_at. -/
structure RecipeRow where
  id : Nat
  title : String
  category : Option String
  cover_image_url : Option String
  steps : List String
  created_at : Nat
deriving DecidableEq, Repr

/-- Row of the ingredients table; name is UNIQUE in the schema. -/
structure IngredientRow where
  id : Nat
  name : String
deriving DecidableEq, Repr

/-- Row of the recipe_ingredients join table. -/
structure LinkRow where
  recipe_id : Nat
  ingredient_id : Nat
  amount : String
deriving DecidableEq, Repr

/-- The whole database state plus the serial-id and timestamp counters. -/
structure Store where
  recipes : List RecipeRow
  ingredients : List IngredientRow
  recipe_ingredients : List LinkRow
  nextRecipeId : Nat
  nextIngredientId : Nat
  clock : Nat
deriving DecidableEq, Repr

/-- One entry of the request body's ingredients array: an absent name is
modelled as "". -/
structure IngredientEntry where
  name : String
  amount : String
deriving DecidableEq, Repr

/-- Request body of POST /ojakh/recipes and PUT /ojakh/recipes/:id.
ingredients = none models a body whose ingredients field is absent or
not an array. -/
structure RecipeReq where
  title : String
  category : Option String
  cover_image_url : Option String
  steps : List String
  ingredients : Option (List IngredientEntry)
deriving DecidableEq, Repr

/-- Response of a write handler: created is HTTP 201 with body id and
title, updated is HTTP 200 with body id and title, serverError is
HTTP 500 after a rollback. -/
inductive WriteResp where
  | created (id : Nat) (title : String)
  | updated (id : Nat) (title : String)
  | serverError
deriving DecidableEq, Repr

/-- Response of a read handler: ok carries the 200 payload, err is the
500 path of the catch block. -/
inductive ReadResp (α : Type) where
  | ok (val : α)
  | err
deriving DecidableEq, Repr

/-- The statement INSERT INTO ingredients (name) VALUES ($1) ON CONFLICT
(name) DO UPDATE SET name = EXCLUDED.name RETURNING id, as issued by both
write handlers on an already-lowercased argument (the handlers pass
ing.name.toLowerCase(); lowercasing is applied here so the function is
the whole upsert step). Returns the resolved id and the new store. -/
def upsertIngredient (s : Store) (name : String) : Nat × Store :=
  let low := lowerStr name
  match s.ingredients.find? (fun i => i.name == low) with
  | some i => (i.id, s)
  | none =>
    (s.nextIngredientId,
     { s with
        ingredients := s.ingredients ++ [⟨s.nextIngredientId, low⟩],
        nextIngredientId := s.nextIngredientId + 1 })

/-- The for-loop shared by both write handlers: for each entry with a
truthy name, upsert the ingredient (one statement) and insert one join
row for rid (one statement); entries with an empty name issue no
statement at all. k is the index the next issued statement gets in the
failure oracle; none is the rollback outcome. -/
def linkAll (fails : Nat → Bool) (rid : Nat) :
    Nat → List IngredientEntry → Store → Option Store
  | _, [], s => some s
  | k, e :: rest, s =>
    if e.name != "" then
      if fails k then none
      else
        let iid := (upsertIngredient s e.name).1
        let s1 := (upsertIngredient s e.name).2
        if fails (k + 1) then none
        else
          linkAll fails rid (k + 2) rest
            { s1 with
                recipe_ingredients :=
                  s1.recipe_ingredients ++ [⟨rid, iid, e.amount⟩] }
    else linkAll fails rid k rest s

/-- Handler POST /ojakh/recipes: BEGIN; INSERT the header row RETURNING
id (statement 0); loop over ingredients (statements 1, 2, ...); COMMIT
and answer 201 with the new id, or ROLLBACK and answer 500 if any
statement fails or iterating the ingredients field throws. -/
def createRecipe (fails : Nat → Bool) (req : RecipeReq) (s : Store) :
    Store × WriteResp :=
  if fails 0 then (s, .serverError)
  else
    let rid := s.nextRecipeId
    let s1 : Store :=
      { s with
          recipes := s.recipes ++
            [⟨rid, req.title, req.category, req.cover_image_url,
              req.steps, s.clock⟩],
          nextRecipeId := rid + 1,
          clock := s.clock + 1 }
    match req.ingredients with
    | none => (s, .serverError)
    | some l =>
      match linkAll fails rid 1 l s1 with
      | none => (s, .serverError)
      | some s2 => (s2, .created rid req.title)

/-- Handler PUT /ojakh/recipes/:id: BEGIN; UPDATE the header row
(statement 0, matching zero or more rows); DELETE all join rows of id
(statement 1); re-run the linking loop (statements 2, 3, ...); COMMIT
and answer 200, or ROLLBACK and answer 500. -/
def updateRecipe (fails : Nat → Bool) (id : Nat) (req : RecipeReq)
    (s : Store) : Store × WriteResp :=
  if fails 0 then (s, .serverError)
  else
    let s1 : Store :=
      { s with
          recipes := s.recipes.map (fun r =>
            if r.id == id then
              { r with
                  title := req.title, category := req.category,
                  cover_image_url := req.cover_image_url,
                  steps := req.steps }
            else r) }
    if fails 1 then (s, .serverError)
    else
      let s2 : Store :=
        { s1 with
            recipe_ingredients :=
              s1.recipe_ingredients.filter (fun ri => ri.recipe_id != id) }
      match req.ingredients with
      | none => (s, .serverError)
      | some l =>
        match linkAll fails id 2 l s2 with
        | none => (s, .serverError)
        | some s3 => (s3, .updated id req.title)

/-- Handler DELETE /ojakh/recipes/:id: DELETE FROM recipes WHERE id = $1
RETURNING title; rowCount 0 answers 404 (modelled as none), otherwise 200
with the deleted title. Modelled from the spec: the schema (not under
src/) declares recipe_ingredients with a cascading foreign key to
recipes, so deleting the header also removes the join rows of id. -/
def deleteRecipe (s : Store) (id : Nat) : Store × Option String :=
  match s.recipes.filter (fun r => r.id == id) with
  | [] => (s, none)
  | r :: _ =>
    ({ s with
        recipes := s.recipes.filter (fun x => x.id != id),
        recipe_ingredients :=
          s.recipe_ingredients.filter (fun ri => ri.recipe_id != id) },
     some r.title)

/-- All join rows of one recipe id. -/
def rowsFor (s : Store) (rid : Nat) : List LinkRow :=
  s.recipe_ingredients.filter (fun ri => ri.recipe_id == rid)

/-- Names of the ingredient rows matching one ingredient id (a singleton
whenever ids are unique and the id exists). -/
def ingNamesOf (s : Store) (iid : Nat) : List String :=
  (s.ingredients.filter (fun i => i.id == iid)).map (fun i => i.name)

/-- The hydration query of GET /ojakh/recipes/:id: SELECT i.name,
ri.amount FROM ingredients i JOIN recipe_ingredients ri ON
i.id = ri.ingredient_id WHERE ri.recipe_id = $1. -/
def recipePairs (s : Store) (rid : Nat) : List (String × String) :=
  (rowsFor s rid).flatMap (fun ri =>
    (ingNamesOf s ri.ingredient_id).map (fun nm => (nm, ri.amount)))

/-- Names of the ingredients joined to one recipe (the first column of
recipePairs). -/
def linkedNames (s : Store) (rid : Nat) : List String :=
  (recipePairs s rid).map Prod.fst

/-- Handler GET /ojakh/recipes/:id: fetch the header row; none models the
404 Recipe-not-found answer; otherwise attach the hydrated ingredient
pairs. -/
def getRecipe (s : Store) (id : Nat) :
    Option (RecipeRow × List (String × String)) :=
  match s.recipes.find? (fun r => r.id == id) with
  | none => none
  | some r => some (r, recipePairs s id)

/-- Character-list comparison giving the ORDER BY ... ASC order on the
ASCII names used here. -/
def charsLe : List Char → List Char → Bool
  | [], _ => true
  | _ :: _, [] => false
  | c :: cs, d :: ds =>
    if c.toNat < d.toNat then true
    else if d.toNat < c.toNat then false
    else charsLe cs ds

/-- String comparison for ORDER BY. -/
def strLe (a b : String) : Bool := charsLe a.data b.data

/-- Handler GET /ojakh/ingredients: SELECT name FROM ingredients ORDER BY
name ASC, mapped to the bare names. -/
def listIngredientNames (s : Store) : List String :=
  (s.ingredients.map (fun i => i.name)).insertionSort
    (fun a b => strLe a b = true)

/-- Summary row of GET /ojakh/recipes. -/
structure RecipeSummary where
  id : Nat
  title : String
  category : Option String
  cover_image_url : Option String
deriving DecidableEq, Repr

/-- Handler GET /ojakh/recipes: SELECT id, title, category,
cover_image_url FROM recipes ORDER BY created_at DESC. -/
def listRecipes (s : Store) : List RecipeSummary :=
  (s.recipes.insertionSort
      (fun a b => b.created_at ≤ a.created_at)).map
    (fun r => ⟨r.id, r.title, r.category, r.cover_image_url⟩)

/-- Handler GET /ojakh/categories: SELECT DISTINCT category FROM recipes
WHERE category IS NOT NULL AND category <> '' ORDER BY category ASC. -/
def listCategories (s : Store) : List String :=
  (((s.recipes.filterMap (fun r => r.category)).filter
      (fun c => c != "")).eraseDups).insertionSort
    (fun a b => strLe a b = true)

/-- Handler POST /ojakh/recipes/find-by-ingredients: an absent or empty
myIngredients answers the empty list before any query; otherwise SELECT
r.* FROM recipes r WHERE NOT EXISTS (SELECT 1 FROM recipe_ingredients ri
JOIN ingredients i ON ri.ingredient_id = i.id WHERE ri.recipe_id = r.id
AND i.name NOT IN (SELECT unnest($1::text[]))). -/
def findRecipesByIngredients (s : Store)
    (myIngredients : Option (List String)) : List RecipeRow :=
  match myIngredients with
  | none => []
  | some cand =>
    if cand.isEmpty then []
    else
      s.recipes.filter (fun r =>
        !(s.recipe_ingredients.any (fun ri =>
            ri.recipe_id == r.id &&
            s.ingredients.any (fun i =>
              i.id == ri.ingredient_id && !(cand.contains i.name)))))

/-- Read handler wrapper for GET /ojakh/recipes: the single SELECT either
succeeds (oracle false) or throws into the catch block; either way the
handler runs no writing statement, which the unchanged first component
expresses. -/
def listRecipesH (fail1 : Bool) (s : Store) :
    Store × ReadResp (List RecipeSummary) :=
  (s, if fail1 then .err else .ok (listRecipes s))

/-- Read handler wrapper for GET /ojakh/recipes/:id. -/
def getRecipeH (fail1 : Bool) (s : Store) (id : Nat) :
    Store × ReadResp (Option (RecipeRow × List (String × String))) :=
  (s, if fail1 then .err else .ok (getRecipe s id))

/-- Read handler wrapper for GET /ojakh/ingredients. -/
def listIngredientNamesH (fail1 : Bool) (s : Store) :
    Store × ReadResp (List String) :=
  (s, if fail1 then .err else .ok (listIngredientNames s))

/-- Read handler wrapper for GET /ojakh/categories. -/
def listCategoriesH (fail1 : Bool) (s : Store) :
    Store × ReadResp (List String) :=
  (s, if fail1 then .err else .ok (listCategories s))

/-- Read handler wrapper for POST /ojakh/recipes/find-by-ingredients. -/
def findRecipesByIngredientsH (fail1 : Bool) (s : Store)
    (myIngredients : Option (List String)) :
    Store × ReadResp (List RecipeRow) :=
  (s, if fail1 then .err else .ok (findRecipesByIngredients s myIngredients))

/-- Well-formedness of the ingredients table: ids below the serial
counter, ids unique, names unique (the schema's UNIQUE constraint). -/
def Store.IngWF (s : Store) : Prop :=
  (∀ i ∈ s.ingredients, i.id < s.nextIngredientId) ∧
  (s.ingredients.map (fun i => i.id)).Nodup ∧
  (s.ingredients.map (fun i => i.name)).Nodup

/-- Well-formedness of the whole store: ingredient table well-formed,
recipe ids below the serial counter, and join rows only referencing
already-allocated recipe ids. -/
def Store.WF (s : Store) : Prop :=
  s.IngWF ∧
  (∀ r ∈ s.recipes, r.id < s.nextRecipeId) ∧
  (∀ ri ∈ s.recipe_ingredients, ri.recipe_id < s.nextRecipeId)

instance decIngWF (s : Store) : Decidable s.IngWF := by
  unfold Store.IngWF
  infer_instance

instance decWF (s : Store) : Decidable s.WF := by
  unfold Store.WF
  infer_instance

/-- Failure oracle of a run in which every SQL statement succeeds. -/
def noFail : Nat → Bool := fun _ => false

/-- Freshly initialised database (Postgres serial counters start at 1). -/
def emptyStore : Store := ⟨[], [], [], 1, 1, 0⟩

/-- Sample create request used by the concrete witnesses. -/
def sampleReq : RecipeReq :=
  ⟨"Pie", some "dessert", some "img", ["mix", "bake"],
   some [⟨"flour", "2 cups"⟩, ⟨"egg", "3"⟩]⟩

/-- Store holding one recipe (id 1, ingredients flour and egg). -/
def sampleStore : Store := (createRecipe noFail sampleReq emptyStore).1

/-- Header row of the recipe held by sampleStore. -/
def sampleRow : RecipeRow :=
  ⟨1, "Pie", some "dessert", some "img", ["mix", "bake"], 0⟩

/-- Sample update request used by the concrete witnesses. -/
def updReq : RecipeReq :=
  ⟨"Pie2", none, none, ["stir"], some [⟨"egg", "1"⟩, ⟨"milk", "2"⟩]⟩

/-- Sample request whose ingredients field is absent or not an array. -/
def badReq : RecipeReq := ⟨"Oops", none, none, [], none⟩

/-- Extension order on the ingredients table: rows are only appended and
every appended row's id is at least the old serial counter. -/
def IngExt (s t : Store) : Prop :=
  s.nextIngredientId ≤ t.nextIngredientId ∧
  ∃ u, t.ingredients = s.ingredients ++ u ∧
    ∀ i ∈ u, s.nextIngredientId ≤ i.id

theorem IngExt.rfl (s : Store) : IngExt s s :=
  ⟨le_refl _, [], by simp, by simp⟩

theorem IngExt.trans {s t u : Store} (h1 : IngExt s t) (h2 : IngExt t u) :
    IngExt s u := by
  obtain ⟨hle1, u1, he1, hb1⟩ := h1
  obtain ⟨hle2, u2, he2, hb2⟩ := h2
  refine ⟨le_trans hle1 hle2, u1 ++ u2, by rw [he2, he1, List.append_assoc], ?_⟩
  intro i hi
  rcases List.mem_append.mp hi with h | h
  · exact hb1 i h
  · exact le_trans hle1 (hb2 i h)

theorem upsert_frame (s : Store) (n : String) :
    (upsertIngredient s n).2.recipes = s.recipes ∧
    (upsertIngredient s n).2.recipe_ingredients = s.recipe_ingredients ∧
    (upsertIngredient s n).2.nextRecipeId = s.nextRecipeId ∧
    (upsertIngredient s n).2.clock = s.clock := by
  cases hf : s.ingredients.find? (fun i => i.name == lowerStr n) with
  | some i => simp [upsertIngredient, hf]
  | none => simp [upsertIngredient, hf]

theorem upsert_ingExt (s : Store) (n : String) :
    IngExt s (upsertIngredient s n).2 := by
  cases hf : s.ingredients.find? (fun i => i.name == lowerStr n) with
  | some i =>
    simp only [upsertIngredient, hf]
    exact IngExt.rfl s
  | none =>
    simp only [upsertIngredient, hf]
    exact ⟨by simp, [⟨s.nextIngredientId, lowerStr n⟩], by simp, by simp⟩

theorem upsert_lt_next (s : Store) (n : String)
    (h : ∀ i ∈ s.ingredients, i.id < s.nextIngredientId) :
    (upsertIngredient s n).1 < (upsertIngredient s n).2.nextIngredientId := by
  cases hf : s.ingredients.find? (fun i => i.name == lowerStr n) with
  | some i =>
    simp only [upsertIngredient, hf]
    exact h i (List.mem_of_find?_eq_some hf)
  | none => simp [upsertIngredient, hf]

theorem upsert_IngWF (s : Store) (n : String) (h : s.IngWF) :
    (upsertIngredient s n).2.IngWF := by
  obtain ⟨hlt, hid, hnm⟩ := h
  cases hf : s.ingredients.find? (fun i => i.name == lowerStr n) with
  | some i =>
    simp only [upsertIngredient, hf]
    exact ⟨hlt, hid, hnm⟩
  | none =>
    simp only [upsertIngredient, hf]
    refine ⟨?_, ?_, ?_⟩
    · intro i hi
      simp only [List.mem_append, List.mem_singleton] at hi
      rcases hi with hi | hi
      · exact lt_trans (hlt i hi) (by simp)
      · simp [hi]
    · simp only [List.map_append, List.map_cons, List.map_nil]
      rw [List.nodup_append]
      refine ⟨hid, List.nodup_singleton _, ?_⟩
      intro a ha hb
      simp only [List.mem_cons, List.not_mem_nil, or_false] at hb
      subst hb
      simp only [List.mem_map] at ha
      obtain ⟨i, hi, hia⟩ := ha
      have := hlt i hi
      omega
    · simp only [List.map_append, List.map_cons, List.map_nil]
      rw [List.nodup_append]
      refine ⟨hnm, List.nodup_singleton _, ?_⟩
      intro a ha hb
      simp only [List.mem_cons, List.not_mem_nil, or_false] at hb
      subst hb
      simp only [List.mem_map] at ha
      obtain ⟨i, hi, hia⟩ := ha
      have := List.find?_eq_none.mp hf i hi
      simp [hia] at this

theorem filter_id_nil (l : List IngredientRow) (b : Nat)
    (h : ∀ i ∈ l, i.id ≠ b) : l.filter (fun j => j.id == b) = [] := by
  induction l with
  | nil => simp
  | cons x t ih =>
    have hx : (x.id == b) = false := by
      simpa using h x (by simp)
    simp only [List.filter_cons, hx, Bool.false_eq_true, if_false]
    exact ih (fun i hi => h i (by simp [hi]))

theorem filter_id_singleton (l : List IngredientRow) (i : IngredientRow)
    (hnd : (l.map (fun j => j.id)).Nodup) (hi : i ∈ l) :
    l.filter (fun j => j.id == i.id) = [i] := by
  induction l with
  | nil => simp at hi
  | cons x t ih =>
    simp only [List.map_cons, List.nodup_cons] at hnd
    rcases List.mem_cons.mp hi with h | h
    · subst h
      simp only [List.filter_cons, beq_self_eq_true, if_true]
      have : t.filter (fun j => j.id == i.id) = [] := by
        refine filter_id_nil t i.id (fun j hj hc => hnd.1 ?_)
        exact List.mem_map.mpr ⟨j, hj, hc.symm ▸ rfl⟩
      rw [this]
    · have hx : (x.id == i.id) = false := by
        simp only [beq_eq_false_iff_ne, ne_eq]
        intro hc
        exact hnd.1 (List.mem_map.mpr ⟨i, h, hc ▸ rfl⟩)
      simp only [List.filter_cons, hx, Bool.false_eq_true, if_false]
      exact ih hnd.2 h

theorem ingNamesOf_upsert (s : Store) (n : String) (h : s.IngWF) :
    ingNamesOf (upsertIngredient s n).2 (upsertIngredient s n).1 =
      [lowerStr n] := by
  obtain ⟨hlt, hid, hnm⟩ := h
  cases hf : s.ingredients.find? (fun i => i.name == lowerStr n) with
  | some i =>
    have hmem := List.mem_of_find?_eq_some hf
    have hname : i.name = lowerStr n := by
      have := List.find?_some hf
      simpa using this
    simp only [upsertIngredient, hf, ingNamesOf]
    rw [filter_id_singleton s.ingredients i hid hmem]
    simp [hname]
  | none =>
    simp only [upsertIngredient, hf, ingNamesOf, List.filter_append]
    rw [filter_id_nil s.ingredients s.nextIngredientId
      (fun i hi => Nat.ne_of_lt (hlt i hi))]
    simp

theorem ingNamesOf_ingExt {s t : Store} (h : IngExt s t) (iid : Nat)
    (hlt : iid < s.nextIngredientId) :
    ingNamesOf t iid = ingNamesOf s iid := by
  obtain ⟨hle, u, he, hb⟩ := h
  unfold ingNamesOf
  rw [he, List.filter_append,
    filter_id_nil u iid (fun i hi hc => absurd (hb i hi) (by omega))]
  simp

theorem linkAll_spec (fails : Nat → Bool) (rid : Nat)
    (l : List IngredientEntry) :
    ∀ (k : Nat) (s s' : Store), linkAll fails rid k l s = some s' →
      s'.recipes = s.recipes ∧ s'.nextRecipeId = s.nextRecipeId ∧
      s'.clock = s.clock ∧ IngExt s s' ∧
      ∃ rows,
        s'.recipe_ingredients = s.recipe_ingredients ++ rows ∧
        (∀ ri ∈ rows, ri.recipe_id = rid) ∧
        rows.map (fun ri => ri.amount) =
          (l.filter (fun e => e.name != "")).map (fun e => e.amount) ∧
        (s.IngWF →
          s'.IngWF ∧
          rows.flatMap (fun ri =>
              (ingNamesOf s' ri.ingredient_id).map
                (fun nm => (nm, ri.amount))) =
            (l.filter (fun e => e.name != "")).map
              (fun e => (lowerStr e.name, e.amount))) := by
  induction l with
  | nil =>
    intro k s s' h
    simp only [linkAll] at h
    cases h
    exact ⟨rfl, rfl, rfl, IngExt.rfl s, [], by simp, by simp, by simp,
      fun hw => ⟨hw, by simp⟩⟩
  | cons e rest ih =>
    intro k s s' h
    simp only [linkAll] at h
    cases hne : (e.name != "") with
    | false =>
      simp only [hne, Bool.false_eq_true, if_false] at h
      obtain ⟨h1, h2, h3, h4, rows, h5, h6, h7, h8⟩ := ih k s s' h
      exact ⟨h1, h2, h3, h4, rows, h5, h6,
        by simpa [List.filter_cons, hne] using h7,
        fun hw => ⟨(h8 hw).1,
          by simpa [List.filter_cons, hne] using (h8 hw).2⟩⟩
    | true =>
      simp only [hne, if_true] at h
      cases hfk : fails k with
      | true => simp [hfk] at h
      | false =>
        simp only [hfk, Bool.false_eq_true, if_false] at h
        cases hfk1 : fails (k + 1) with
        | true => simp [hfk1] at h
        | false =>
          simp only [hfk1, Bool.false_eq_true, if_false] at h
          obtain ⟨h1, h2, h3, h4, rows, h5, h6, h7, h8⟩ :=
            ih (k + 2) _ s' h
          obtain ⟨f1, f2, f3, f4⟩ := upsert_frame s e.name
          refine ⟨by rw [h1]; exact f1, by rw [h2]; exact f3,
            by rw [h3]; exact f4, ?_, ?_⟩
          · refine IngExt.trans (upsert_ingExt s e.name)
              (IngExt.trans ?_ h4)
            exact ⟨le_refl _, [], by simp, by simp⟩
          · refine ⟨⟨rid, (upsertIngredient s e.name).1, e.amount⟩ :: rows,
              ?_, ?_, ?_, ?_⟩
            · rw [h5]
              simp only [f2]
              simp [List.append_assoc]
            · intro ri hri
              rcases List.mem_cons.mp hri with hri | hri
              · rw [hri]
              · exact h6 ri hri
            · simpa [List.filter_cons, hne] using h7
            · intro hw
              have hw1 := upsert_IngWF s e.name hw
              obtain ⟨hw', hpairs⟩ := h8 hw1
              refine ⟨hw', ?_⟩
              have hlt : (upsertIngredient s e.name).1 <
                  (upsertIngredient s e.name).2.nextIngredientId :=
                upsert_lt_next s e.name hw.1
              have hnames : ingNamesOf s' (upsertIngredient s e.name).1 =
                  [lowerStr e.name] := by
                rw [ingNamesOf_ingExt h4 _ hlt]
                exact ingNamesOf_upsert s e.name hw
              simp only [List.flatMap_cons, hnames, List.map_cons,
                List.filter_cons, hne, if_true, hpairs]
              simp

theorem linkAll_filter (fails : Nat → Bool) (rid : Nat)
    (l : List IngredientEntry) :
    ∀ (k : Nat) (s : Store),
      linkAll fails rid k l s =
        linkAll fails rid k (l.filter (fun e => e.name != "")) s := by
  induction l with
  | nil => intro k s; rfl
  | cons e rest ih =>
    intro k s
    cases hne : (e.name != "") with
    | false => simp only [linkAll, hne, List.filter_cons, Bool.false_eq_true,
        if_false, ih]
    | true =>
      simp only [linkAll, List.filter_cons, hne, if_true]
      cases fails k with
      | true => simp
      | false =>
        simp only [Bool.false_eq_true, if_false]
        cases fails (k + 1) with
        | true => simp
        | false => simp only [Bool.false_eq_true, if_false, ih]

theorem linkAll_isSome (fails : Nat → Bool) (rid : Nat)
    (hok : ∀ n, fails n = false) (l : List IngredientEntry) :
    ∀ (k : Nat) (s : Store), ∃ s', linkAll fails rid k l s = some s' := by
  induction l with
  | nil => intro k s; exact ⟨s, rfl⟩
  | cons e rest ih =>
    intro k s
    cases hne : (e.name != "") with
    | false =>
      simp only [linkAll, hne, Bool.false_eq_true, if_false]
      exact ih k s
    | true =>
      simp only [linkAll, hne, if_true, hok k, hok (k + 1),
        Bool.false_eq_true, if_false]
      exact ih (k + 2) _

/-- C10: createRecipe with a request body whose ingredients field is
absent or not a list does not crash: whatever the statement oracle says,
the handler catches the iteration error after the header insert, rolls
the transaction back (the store comes back unchanged, so no header
persists) and answers 500. -/
theorem create_bad_ingredients_rolls_back (fails : Nat → Bool)
    (req : RecipeReq) (s : Store) (h : req.ingredients = none) :
    createRecipe fails req s = (s, .serverError) := by
  cases hf : fails 0 <;> simp [createRecipe, h, hf]

theorem create_bad_ingredients_rolls_back_wit :
    createRecipe noFail badReq emptyStore = (emptyStore, .serverError) :=
  create_bad_ingredients_rolls_back noFail badReq emptyStore rfl

/-- C9: every read handler (list recipes, get one recipe, list
ingredients, list categories, find-by-ingredients) returns the store it
was given unchanged, whether its SELECT succeeds or throws into the
catch block: no row of any table is modified. -/
theorem reads_preserve_store (b : Bool) (s : Store) (id : Nat)
    (cand : Option (List String)) :
    (listRecipesH b s).1 = s ∧ (getRecipeH b s id).1 = s ∧
    (listIngredientNamesH b s).1 = s ∧ (listCategoriesH b s).1 = s ∧
    (findRecipesByIngredientsH b s cand).1 = s :=
  ⟨rfl, rfl, rfl, rfl, rfl⟩

/-- C8: in both createRecipe and updateRecipe an ingredient entry with an
empty or absent name is silently skipped — it issues no upsert and no
join-row insert — so running the handler on a list is the same as
running it on the list with those entries removed, statement for
statement. -/
theorem empty_name_entries_skipped (fails : Nat → Bool) (id : Nat)
    (s : Store) (title : String) (cat cov : Option String)
    (steps : List String) (l : List IngredientEntry) :
    createRecipe fails ⟨title, cat, cov, steps, some l⟩ s =
      createRecipe fails
        ⟨title, cat, cov, steps, some (l.filter (fun e => e.name != ""))⟩ s ∧
    updateRecipe fails id ⟨title, cat, cov, steps, some l⟩ s =
      updateRecipe fails id
        ⟨title, cat, cov, steps, some (l.filter (fun e => e.name != ""))⟩ s := by
  constructor
  · simp only [createRecipe]
    cases hf : fails 0 with
    | true => simp
    | false =>
      simp only [Bool.false_eq_true, if_false]
      rw [linkAll_filter]
  · simp only [updateRecipe]
    cases hf : fails 0 with
    | true => simp
    | false =>
      simp only [Bool.false_eq_true, if_false]
      cases hf1 : fails 1 with
      | true => simp
      | false =>
        simp only [Bool.false_eq_true, if_false]
        rw [linkAll_filter]

/-- C1: createRecipe is atomic. Every run either leaves the store exactly
as it was and answers 500 (the rollback path, taken whenever the header
insert, an ingredient upsert or a join insert fails, or the ingredients
field cannot be iterated), or answers 201 with the new id and persists
the header row together with exactly one join row per non-empty-named
ingredient entry. -/
theorem create_recipe_atomic (fails : Nat → Bool) (req : RecipeReq)
    (s : Store) :
    createRecipe fails req s = (s, .serverError) ∨
    (∃ l rows,
      req.ingredients = some l ∧
      (createRecipe fails req s).2 = .created s.nextRecipeId req.title ∧
      (createRecipe fails req s).1.recipes = s.recipes ++
        [⟨s.nextRecipeId, req.title, req.category, req.cover_image_url,
          req.steps, s.clock⟩] ∧
      (createRecipe fails req s).1.recipe_ingredients =
        s.recipe_ingredients ++ rows ∧
      (∀ ri ∈ rows, ri.recipe_id = s.nextRecipeId) ∧
      rows.map (fun ri => ri.amount) =
        (l.filter (fun e => e.name != "")).map (fun e => e.amount)) := by
  cases hf : fails 0 with
  | true => left; simp [createRecipe, hf]
  | false =>
    cases hl : req.ingredients with
    | none => left; simp [createRecipe, hf, hl]
    | some l =>
      cases hres : linkAll fails s.nextRecipeId 1 l
          { s with
              recipes := s.recipes ++
                [⟨s.nextRecipeId, req.title, req.category,
                  req.cover_image_url, req.steps, s.clock⟩],
              nextRecipeId := s.nextRecipeId + 1,
              clock := s.clock + 1 } with
      | none => left; simp [createRecipe, hf, hl, hres]
      | some s2 =>
        right
        obtain ⟨h1, h2, h3, h4, rows, h5, h6, h7, h8⟩ :=
          linkAll_spec fails s.nextRecipeId l 1 _ s2 hres
        refine ⟨l, rows, rfl, ?_, ?_, ?_, h6, h7⟩ <;>
          simp [createRecipe, hf, hl, hres, h1, h5]

/-- C7: deleteRecipe answers 404 (none) exactly when no recipe row has
the given id; otherwise it answers with the deleted recipe's title, the
header row is deleted (no recipe row with that id remains), and
afterwards no join row references the deleted id (the schema's cascading
delete, modelled from the spec). -/
theorem delete_recipe_spec (s : Store) (id : Nat) :
    ((deleteRecipe s id).2 = none ↔ ∀ r ∈ s.recipes, r.id ≠ id) ∧
    (∀ t, (deleteRecipe s id).2 = some t →
      (∃ r ∈ s.recipes, r.id = id ∧ r.title = t) ∧
      (∀ r ∈ (deleteRecipe s id).1.recipes, r.id ≠ id) ∧
      ∀ ri ∈ (deleteRecipe s id).1.recipe_ingredients,
        ri.recipe_id ≠ id) := by
  cases hm : s.recipes.filter (fun r => r.id == id) with
  | nil =>
    refine ⟨⟨fun _ r hr hc => ?_, fun _ => by simp [deleteRecipe, hm]⟩,
      fun t ht => ?_⟩
    · have := List.filter_eq_nil_iff.mp hm r hr
      simp [hc] at this
    · simp [deleteRecipe, hm] at ht
  | cons r tl =>
    have hrmem : r ∈ s.recipes.filter (fun x => x.id == id) := by
      rw [hm]; exact List.mem_cons_self r tl
    have hrm := List.mem_filter.mp hrmem
    have hrid : r.id = id := by simpa using hrm.2
    refine ⟨⟨fun hc => by simp [deleteRecipe, hm] at hc,
      fun hall => absurd hrid (hall r hrm.1)⟩, fun t ht => ?_⟩
    have htt : r.title = t := by
      simpa [deleteRecipe, hm] using ht
    refine ⟨⟨r, hrm.1, hrid, htt⟩, fun x hx => ?_, fun ri hri => ?_⟩
    · simp only [deleteRecipe, hm] at hx
      have := (List.mem_filter.mp hx).2
      simpa using this
    · simp only [deleteRecipe, hm] at hri
      have := (List.mem_filter.mp hri).2
      simpa using this

theorem delete_recipe_spec_wit :
    ((deleteRecipe sampleStore 1).2 = none ↔
      ∀ r ∈ sampleStore.recipes, r.id ≠ 1) ∧
    (∀ t, (deleteRecipe sampleStore 1).2 = some t →
      (∃ r ∈ sampleStore.recipes, r.id = 1 ∧ r.title = t) ∧
      (∀ r ∈ (deleteRecipe sampleStore 1).1.recipes, r.id ≠ 1) ∧
      ∀ ri ∈ (deleteRecipe sampleStore 1).1.recipe_ingredients,
        ri.recipe_id ≠ 1) :=
  delete_recipe_spec sampleStore 1

/-- C6: updateRecipe on an id with no recipe row, with an iterable
ingredients field and no failing statement, silently succeeds: it
answers 200 (not 404), the header update matches zero rows so the
recipes table is unchanged, and the delete/relink phase still runs
against the nonexistent id, leaving one join row per non-empty-named
entry attached to it. -/
theorem update_nonexistent_id_ok (fails : Nat → Bool) (id : Nat)
    (req : RecipeReq) (s : Store) (l : List IngredientEntry)
    (hne : ∀ r ∈ s.recipes, r.id ≠ id)
    (hl : req.ingredients = some l)
    (hok : ∀ n, fails n = false) :
    (updateRecipe fails id req s).2 = .updated id req.title ∧
    (updateRecipe fails id req s).1.recipes = s.recipes ∧
    (rowsFor (updateRecipe fails id req s).1 id).map (fun ri => ri.amount) =
      (l.filter (fun e => e.name != "")).map (fun e => e.amount) := by
  have hmap : s.recipes.map (fun r =>
      if r.id == id then
        { r with
            title := req.title, category := req.category,
            cover_image_url := req.cover_image_url,
            steps := req.steps }
      else r) = s.recipes := by
    refine (List.map_congr_left fun r hr => ?_).trans (List.map_id _)
    have : (r.id == id) = false := by simpa using hne r hr
    simp [this]
  obtain ⟨s3, hres⟩ := linkAll_isSome fails id hok l 2
    { s with
        recipes := s.recipes.map (fun r =>
          if r.id == id then
            { r with
                title := req.title, category := req.category,
                cover_image_url := req.cover_image_url,
                steps := req.steps }
          else r),
        recipe_ingredients :=
          s.recipe_ingredients.filter (fun ri => ri.recipe_id != id) }
  obtain ⟨h1, h2, h3, h4, rows, h5, h6, h7, h8⟩ :=
    linkAll_spec fails id l 2 _ s3 hres
  have hdel : ((s.recipe_ingredients.filter
      (fun ri => ri.recipe_id != id)).filter
        (fun ri => ri.recipe_id == id)) = [] := by
    refine List.filter_eq_nil_iff.mpr fun ri hri => ?_
    have := (List.mem_filter.mp hri).2
    simpa using this
  have hrows : rows.filter (fun ri => ri.recipe_id == id) = rows :=
    List.filter_eq_self.mpr fun ri hri => by simp [h6 ri hri]
  refine ⟨?_, ?_, ?_⟩
  · simp only [updateRecipe, hok 0, hok 1, hl, Bool.false_eq_true,
      if_false]
    rw [hres]
  · simp only [updateRecipe, hok 0, hok 1, hl, Bool.false_eq_true,
      if_false]
    rw [hres]
    rw [h1]
    exact hmap
  · simp only [updateRecipe, hok 0, hok 1, hl, Bool.false_eq_true,
      if_false]
    rw [hres]
    simp only [rowsFor]
    rw [h5]
    simp only [List.filter_append, hdel, hrows, List.nil_append]
    exact h7

theorem update_nonexistent_id_ok_wit :
    (updateRecipe noFail 7 updReq emptyStore).2 = .updated 7 updReq.title ∧
    (updateRecipe noFail 7 updReq emptyStore).1.recipes =
      emptyStore.recipes ∧
    (rowsFor (updateRecipe noFail 7 updReq emptyStore).1 7).map
        (fun ri => ri.amount) =
      (([⟨"egg", "1"⟩, ⟨"milk", "2"⟩] : List IngredientEntry).filter
        (fun e => e.name != "")).map (fun e => e.amount) :=
  update_nonexistent_id_ok noFail 7 updReq emptyStore
    [⟨"egg", "1"⟩, ⟨"milk", "2"⟩] (by decide) rfl (fun _ => rfl)

theorem upsert_congr (s : Store) {n1 n2 : String}
    (h : lowerStr n1 = lowerStr n2) :
    upsertIngredient s n1 = upsertIngredient s n2 := by
  unfold upsertIngredient
  rw [h]

theorem upsert_twice (s : Store) (n : String) :
    upsertIngredient (upsertIngredient s n).2 n = upsertIngredient s n := by
  cases hf : s.ingredients.find? (fun i => i.name == lowerStr n) with
  | some i =>
    have e1 : upsertIngredient s n = (i.id, s) := by
      simp [upsertIngredient, hf]
    rw [e1]
    exact e1
  | none =>
    have e1 : upsertIngredient s n =
        (s.nextIngredientId,
         { s with
            ingredients :=
              s.ingredients ++ [⟨s.nextIngredientId, lowerStr n⟩],
            nextIngredientId := s.nextIngredientId + 1 }) := by
      simp [upsertIngredient, hf]
    rw [e1]
    have hf2 : (s.ingredients ++
        [(⟨s.nextIngredientId, lowerStr n⟩ : IngredientRow)]).find?
          (fun i => i.name == lowerStr n) =
        some ⟨s.nextIngredientId, lowerStr n⟩ := by
      rw [List.find?_append, hf]
      simp
    simp [upsertIngredient, hf2, e1]

theorem upsert_count (s : Store) (n : String) (hw : s.IngWF) :
    (listIngredientNames (upsertIngredient s n).2).count (lowerStr n) =
      1 := by
  obtain ⟨hlt, hid, hnm⟩ := hw
  have hperm : ∀ t : Store,
      (listIngredientNames t).count (lowerStr n) =
        (t.ingredients.map (fun i => i.name)).count (lowerStr n) :=
    fun t => (List.perm_insertionSort _ _).count_eq _
  cases hf : s.ingredients.find? (fun i => i.name == lowerStr n) with
  | some i =>
    have hmem := List.mem_of_find?_eq_some hf
    have hname : i.name = lowerStr n := by simpa using List.find?_some hf
    have e1 : upsertIngredient s n = (i.id, s) := by
      simp [upsertIngredient, hf]
    rw [e1, hperm]
    exact List.count_eq_one_of_mem hnm
      (List.mem_map.mpr ⟨i, hmem, hname⟩)
  | none =>
    have hnot : lowerStr n ∉ s.ingredients.map (fun i => i.name) := by
      intro hc
      obtain ⟨i, hi, hie⟩ := List.mem_map.mp hc
      have := List.find?_eq_none.mp hf i hi
      simp [hie] at this
    have e1 : upsertIngredient s n =
        (s.nextIngredientId,
         { s with
            ingredients :=
              s.ingredients ++ [⟨s.nextIngredientId, lowerStr n⟩],
            nextIngredientId := s.nextIngredientId + 1 }) := by
      simp [upsertIngredient, hf]
    rw [e1, hperm]
    simp only [List.map_append, List.map_cons, List.map_nil,
      List.count_append]
    rw [List.count_eq_zero.mpr hnot]
    simp

/-- C3: upsertIngredient is idempotent under case-insensitive comparison:
upserting a name whose lowercasing matches an already-upserted name
returns the same identifier, changes nothing (no new row), and the
ingredient listing then holds the lowercased name exactly once. -/
theorem upsert_ingredient_idempotent (s : Store) (n1 n2 : String)
    (hw : s.IngWF) (hn : lowerStr n1 = lowerStr n2) :
    (upsertIngredient (upsertIngredient s n1).2 n2).1 =
      (upsertIngredient s n1).1 ∧
    (upsertIngredient (upsertIngredient s n1).2 n2).2 =
      (upsertIngredient s n1).2 ∧
    (listIngredientNames
        (upsertIngredient (upsertIngredient s n1).2 n2).2).count
      (lowerStr n2) = 1 := by
  have e2 : upsertIngredient (upsertIngredient s n1).2 n2 =
      upsertIngredient s n1 := by
    rw [← upsert_congr _ hn, upsert_twice]
  refine ⟨by rw [e2], by rw [e2], ?_⟩
  rw [e2, ← hn]
  exact upsert_count s n1 hw

theorem upsert_ingredient_idempotent_wit :
    (upsertIngredient (upsertIngredient emptyStore "Tomato").2
        "tomato").1 = (upsertIngredient emptyStore "Tomato").1 ∧
    (upsertIngredient (upsertIngredient emptyStore "Tomato").2
        "tomato").2 = (upsertIngredient emptyStore "Tomato").2 ∧
    (listIngredientNames
        (upsertIngredient (upsertIngredient emptyStore "Tomato").2
          "tomato").2).count (lowerStr "tomato") = 1 :=
  upsert_ingredient_idempotent emptyStore "Tomato" "tomato"
    (by decide) (by decide)

theorem mem_linkedNames (s : Store) (rid : Nat) (nm : String) :
    nm ∈ linkedNames s rid ↔
      ∃ ri ∈ s.recipe_ingredients, ri.recipe_id = rid ∧
        ∃ i ∈ s.ingredients, i.id = ri.ingredient_id ∧ i.name = nm := by
  simp only [linkedNames, recipePairs, rowsFor, ingNamesOf, List.mem_map,
    List.mem_flatMap, List.mem_filter, beq_iff_eq]
  aesop

/-- C2: findRecipesByIngredients returns exactly the recipes whose
joined ingredient names all lie in the candidate list (so a recipe with
zero links is always returned), excludes every recipe with a joined
name outside the list, and answers the empty list for an absent or
empty candidate list whatever the store holds. -/
theorem find_by_ingredients_subset (s : Store) (cand : List String)
    (hc : cand ≠ []) (r : RecipeRow) :
    (r ∈ findRecipesByIngredients s (some cand) ↔
      r ∈ s.recipes ∧ ∀ nm ∈ linkedNames s r.id, nm ∈ cand) ∧
    findRecipesByIngredients s none = [] ∧
    findRecipesByIngredients s (some []) = [] := by
  have hce : cand.isEmpty = false := by
    cases cand with
    | nil => exact absurd rfl hc
    | cons a t => rfl
  refine ⟨?_, rfl, rfl⟩
  simp only [findRecipesByIngredients, hce, Bool.false_eq_true, if_false,
    List.mem_filter, Bool.not_eq_true', and_congr_right_iff]
  intro hr
  rw [List.any_eq_false]
  constructor
  · intro hnone nm hnm
    obtain ⟨ri, hri, hrid, i, hi, hii, hin⟩ :=
      (mem_linkedNames s r.id nm).mp hnm
    by_contra hnin
    refine hnone ri hri ?_
    simp only [Bool.and_eq_true, beq_iff_eq, List.any_eq_true]
    exact ⟨hrid, i, hi, by simp [hii.symm, hin, hnin]⟩
  · intro hall ri hri hpred
    simp only [Bool.and_eq_true, beq_iff_eq, List.any_eq_true] at hpred
    obtain ⟨hrid, i, hi, hp⟩ := hpred
    simp only [Bool.and_eq_true, beq_iff_eq, Bool.not_eq_true'] at hp
    obtain ⟨hii, hnin⟩ := hp
    have hmem : i.name ∈ linkedNames s r.id :=
      (mem_linkedNames s r.id i.name).mpr ⟨ri, hri, hrid, i, hi, hii, rfl⟩
    have := hall i.name hmem
    exact absurd this (by simpa using hnin)

theorem find_by_ingredients_subset_wit :
    (sampleRow ∈ findRecipesByIngredients sampleStore
        (some ["egg", "flour", "milk"]) ↔
      sampleRow ∈ sampleStore.recipes ∧
      ∀ nm ∈ linkedNames sampleStore sampleRow.id,
        nm ∈ ["egg", "flour", "milk"]) ∧
    findRecipesByIngredients sampleStore none = [] ∧
    findRecipesByIngredients sampleStore (some []) = [] :=
  find_by_ingredients_subset sampleStore ["egg", "flour", "milk"]
    (by decide) sampleRow

/-- C4: updateRecipe replaces the ingredient links fully. After a
successful update of an existing recipe with ingredient list l, the join
rows of that recipe are exactly one per non-empty-named entry of l —
pairing each entry's lowercased name with its amount — and none of the
previous links survive. -/
theorem update_recipe_replaces_links (fails : Nat → Bool) (id : Nat)
    (req : RecipeReq) (s : Store) (l : List IngredientEntry)
    (hw : s.IngWF) (hex : ∃ r ∈ s.recipes, r.id = id)
    (hl : req.ingredients = some l)
    (hres : (updateRecipe fails id req s).2 = .updated id req.title) :
    recipePairs (updateRecipe fails id req s).1 id =
      (l.filter (fun e => e.name != "")).map
        (fun e => (lowerStr e.name, e.amount)) ∧
    (rowsFor (updateRecipe fails id req s).1 id).length =
      (l.filter (fun e => e.name != "")).length := by
  cases hf0 : fails 0 with
  | true => simp [updateRecipe, hf0] at hres
  | false =>
  cases hf1 : fails 1 with
  | true => simp [updateRecipe, hf0, hf1] at hres
  | false =>
  cases hr : linkAll fails id 2 l
      { s with
          recipes := s.recipes.map (fun r =>
            if r.id == id then
              { r with
                  title := req.title, category := req.category,
                  cover_image_url := req.cover_image_url,
                  steps := req.steps }
            else r),
          recipe_ingredients :=
            s.recipe_ingredients.filter
              (fun ri => ri.recipe_id != id) } with
  | none =>
    simp only [updateRecipe, hf0, hf1, hl, Bool.false_eq_true, if_false]
      at hres
    rw [hr] at hres
    simp at hres
  | some s3 =>
    obtain ⟨h1, h2, h3, h4, rows, h5, h6, h7, h8⟩ :=
      linkAll_spec fails id l 2 _ s3 hr
    obtain ⟨hw3, hpairs⟩ := h8 hw
    have heq : (updateRecipe fails id req s).1 = s3 := by
      simp only [updateRecipe, hf0, hf1, hl, Bool.false_eq_true, if_false]
      rw [hr]
    have hdel : ((s.recipe_ingredients.filter
        (fun ri => ri.recipe_id != id)).filter
          (fun ri => ri.recipe_id == id)) = [] := by
      refine List.filter_eq_nil_iff.mpr fun ri hri => ?_
      have := (List.mem_filter.mp hri).2
      simpa using this
    have hrows : rows.filter (fun ri => ri.recipe_id == id) = rows :=
      List.filter_eq_self.mpr fun ri hri => by simp [h6 ri hri]
    have hrf : rowsFor s3 id = rows := by
      simp only [rowsFor]
      rw [h5]
      simp only [List.filter_append, hdel, hrows, List.nil_append]
    refine ⟨?_, ?_⟩
    · rw [heq]
      simp only [recipePairs, hrf]
      exact hpairs
    · rw [heq, hrf]
      have := congrArg List.length h7
      simpa using this

theorem update_recipe_replaces_links_wit :
    recipePairs (updateRecipe noFail 1 updReq sampleStore).1 1 =
      (([⟨"egg", "1"⟩, ⟨"milk", "2"⟩] : List IngredientEntry).filter
        (fun e => e.name != "")).map
          (fun e => (lowerStr e.name, e.amount)) ∧
    (rowsFor (updateRecipe noFail 1 updReq sampleStore).1 1).length =
      (([⟨"egg", "1"⟩, ⟨"milk", "2"⟩] : List IngredientEntry).filter
        (fun e => e.name != "")).length :=
  update_recipe_replaces_links noFail 1 updReq sampleStore
    [⟨"egg", "1"⟩, ⟨"milk", "2"⟩] (by decide) (by decide) rfl (by decide)

/-- C5: round trip. A successful createRecipe whose ingredient entries
all carry non-empty already-lowercase names is followed by a getRecipe
on the returned id that answers the created header (same steps sequence)
together with exactly the requested name and amount pairs; and getRecipe
on an id with no header row answers NotFound (none). -/
theorem create_get_round_trip (fails : Nat → Bool) (req : RecipeReq)
    (s : Store) (l : List IngredientEntry)
    (hw : s.WF) (hl : req.ingredients = some l)
    (hnm : ∀ e ∈ l, e.name ≠ "" ∧ lowerStr e.name = e.name)
    (hres : (createRecipe fails req s).2 =
      .created s.nextRecipeId req.title) :
    getRecipe (createRecipe fails req s).1 s.nextRecipeId =
      some (⟨s.nextRecipeId, req.title, req.category, req.cover_image_url,
        req.steps, s.clock⟩, l.map (fun e => (e.name, e.amount))) ∧
    ∀ (t : Store) (j : Nat), (∀ r ∈ t.recipes, r.id ≠ j) →
      getRecipe t j = none := by
  obtain ⟨hiw, hrfk, hlfk⟩ := hw
  have h404 : ∀ (t : Store) (j : Nat), (∀ r ∈ t.recipes, r.id ≠ j) →
      getRecipe t j = none := by
    intro t j hnone
    have hfind : t.recipes.find? (fun r => r.id == j) = none :=
      List.find?_eq_none.mpr fun r hr => by simpa using hnone r hr
    simp [getRecipe, hfind]
  refine ⟨?_, h404⟩
  cases hf0 : fails 0 with
  | true => simp [createRecipe, hf0] at hres
  | false =>
  cases hr : linkAll fails s.nextRecipeId 1 l
      { s with
          recipes := s.recipes ++
            [⟨s.nextRecipeId, req.title, req.category,
              req.cover_image_url, req.steps, s.clock⟩],
          nextRecipeId := s.nextRecipeId + 1,
          clock := s.clock + 1 } with
  | none =>
    simp only [createRecipe, hf0, hl, Bool.false_eq_true, if_false]
      at hres
    rw [hr] at hres
    simp at hres
  | some s2 =>
    obtain ⟨h1, h2, h3, h4, rows, h5, h6, h7, h8⟩ :=
      linkAll_spec fails s.nextRecipeId l 1 _ s2 hr
    obtain ⟨hw2, hpairs⟩ := h8 hiw
    have heq : (createRecipe fails req s).1 = s2 := by
      simp only [createRecipe, hf0, hl, Bool.false_eq_true, if_false]
      rw [hr]
    have hfind : s2.recipes.find? (fun r => r.id == s.nextRecipeId) =
        some ⟨s.nextRecipeId, req.title, req.category,
          req.cover_image_url, req.steps, s.clock⟩ := by
      rw [h1]
      have hleft : s.recipes.find? (fun r => r.id == s.nextRecipeId) =
          none :=
        List.find?_eq_none.mpr fun r hrr => by
          simpa using Nat.ne_of_lt (hrfk r hrr)
      show (s.recipes ++ [_]).find? _ = _
      rw [List.find?_append, hleft]
      simp
    have hdel : s.recipe_ingredients.filter
        (fun ri => ri.recipe_id == s.nextRecipeId) = [] :=
      List.filter_eq_nil_iff.mpr fun ri hri => by
        simpa using Nat.ne_of_lt (hlfk ri hri)
    have hrows : rows.filter (fun ri => ri.recipe_id == s.nextRecipeId) =
        rows :=
      List.filter_eq_self.mpr fun ri hri => by simp [h6 ri hri]
    have hrf : rowsFor s2 s.nextRecipeId = rows := by
      simp only [rowsFor]
      rw [h5]
      simp only [List.filter_append, hdel, hrows, List.nil_append]
    have hfl : l.filter (fun e => e.name != "") = l :=
      List.filter_eq_self.mpr fun e he => by
        simpa using (hnm e he).1
    have hpl : (recipePairs s2 s.nextRecipeId) =
        l.map (fun e => (e.name, e.amount)) := by
      simp only [recipePairs, hrf]
      rw [hpairs, hfl]
      exact List.map_congr_left fun e he => by rw [(hnm e he).2]
    rw [heq]
    simp only [getRecipe, hfind, hpl]

theorem create_get_round_trip_wit :
    getRecipe (createRecipe noFail sampleReq emptyStore).1
        emptyStore.nextRecipeId =
      some (⟨emptyStore.nextRecipeId, sampleReq.title, sampleReq.category,
        sampleReq.cover_image_url, sampleReq.steps, emptyStore.clock⟩,
        ([⟨"flour", "2 cups"⟩, ⟨"egg", "3"⟩] : List IngredientEntry).map
          (fun e => (e.name, e.amount))) ∧
    ∀ (t : Store) (j : Nat), (∀ r ∈ t.recipes, r.id ≠ j) →
      getRecipe t j = none :=
  create_get_round_trip noFail sampleReq emptyStore
    [⟨"flour", "2 cups"⟩, ⟨"egg", "3"⟩] (by decide) rfl (by decide)
    (by decide)

end Ojakh
